import Mathlib

/-!
Shallow embedding of the interactive list/selection core of gitsi
(`src/main.c`): the entry model, category-aware filtering, navigation with
wraparound and repeat counts, marking (including visual mark mode), the modal
input router and the scroll-offset computation of the layout engine.

Entries are modelled as values; the C code's pointer identity is modelled by
store indices: `Context.entries` is the entry store, `Context.filtered` holds
indices into the store (the C `filtered_entries` pointer array), and
`Context.position` is `some i` for a pointer to store entry `i` and `none`
for `NULL`.  Functions that in C can read or write out of bounds (or
dereference `NULL`, or exit the process) return `Option`; `none` marks those
executions.
-/

namespace Gitsi

/-- Model of `enum GITSI_STATUS_TYPE` from main.c. -/
inductive StatusType where
  | workspace
  | indexed
  | untracked
  | category
deriving DecidableEq

/-- Model of `struct gitsi_status_entry` (the `git_status` field is irrelevant to the
    list core and omitted; `filename`/`description` are modelled as strings,
    `NULL` descriptions as `""`). -/
structure Entry where
  filename : String
  description : String
  etype : StatusType
  marked : Bool
deriving DecidableEq

/-- Placeholder entry used for the default of indexed lookups; theorems about
    entry lookups always carry in-bounds hypotheses, so it is never the value
    actually reached by the code paths being verified. -/
def Entry.dummy : Entry := { filename := "", description := "", etype := StatusType.workspace, marked := false }

/-- Model of `enum key_stroke` from main.c. -/
inductive key_stroke where
  | K_SLASH | K_Q | K_S | K_U | K_S_S | K_S_U | K_D | K_I | K_M | K_S_M | K_C | K_E | K_R
  | K_BACKSPACE | K_ESC | K_ENTER | K_YES | K_NO | K_H | K_S_V | K_S_C | K_X | K_P | K_S_P
  | K_G | K_C_U | K_C_D | K_J | K_K | K_S_G | K_S_1 | K_S_2 | K_S_3
  | K_ARROW_LEFT | K_ARROW_RIGHT | K_ARROW_UP | K_ARROW_DOWN
  | K_COMMAND
  | K_HELP
  | K_OTHER
deriving DecidableEq

/-- The relevant fields of `struct gitsi_context`.  Screen/repository handles
    are external to the list core.  `number_stack` holds the character codes
    of the accumulated digits (C stores raw `char`s). -/
structure Context where
  entries : List Entry
  search_term : String
  filtered : List Nat
  position : Option Nat
  command_term : String
  is_search : Bool
  is_in_command_mode : Bool
  is_visual_mark_mode : Bool
  is_in_help : Bool
  number_stack : List Nat
  sigint : Bool
deriving DecidableEq

/-- Model of `translate_key`: `keyname(ch)` of a printable character is that character,
    so the string comparisons of the C code turn into comparisons of the
    character codes; the control keys compared against `"^U"`, `"^D"`, `"^?"`,
    `"^["`, `"^M"` arrive as the codes 21, 4, 127, 27, 13. -/
def translate_key (ch : Nat) : key_stroke :=
  if ch = 10 then .K_ENTER
  else if ch = 259 then .K_ARROW_UP
  else if ch = 258 then .K_ARROW_DOWN
  else if ch = 260 then .K_ARROW_LEFT
  else if ch = 261 then .K_ARROW_RIGHT
  else if ch = 47 then .K_SLASH      -- "/"
  else if ch = 113 then .K_Q         -- "q"
  else if ch = 106 then .K_J         -- "j"
  else if ch = 107 then .K_K         -- "k"
  else if ch = 114 then .K_R         -- "r"
  else if ch = 58 then .K_COMMAND    -- ":"
  else if ch = 115 then .K_S         -- "s"
  else if ch = 117 then .K_U         -- "u"
  else if ch = 63 then .K_HELP       -- "?"
  else if ch = 83 then .K_S_S        -- "S"
  else if ch = 85 then .K_S_U        -- "U"
  else if ch = 109 then .K_M         -- "m"
  else if ch = 77 then .K_S_M        -- "M"
  else if ch = 86 then .K_S_V        -- "V"
  else if ch = 99 then .K_C          -- "c"
  else if ch = 67 then .K_S_C        -- "C"
  else if ch = 120 then .K_X         -- "x"
  else if ch = 104 then .K_H         -- "h"
  else if ch = 112 then .K_P         -- "p"
  else if ch = 80 then .K_S_P        -- "P"
  else if ch = 100 then .K_D         -- "d"
  else if ch = 101 then .K_E         -- "e"
  else if ch = 103 then .K_G         -- "g"
  else if ch = 105 then .K_I         -- "i"
  else if ch = 33 then .K_S_1        -- "!"
  else if ch = 64 then .K_S_2        -- "@"
  else if ch = 35 then .K_S_3        -- "#"
  else if ch = 89 then .K_YES        -- "Y"
  else if ch = 78 then .K_NO         -- "N"
  else if ch = 71 then .K_S_G        -- "G"
  else if ch = 21 then .K_C_U        -- "^U"
  else if ch = 4 then .K_C_D         -- "^D"
  else if ch = 127 then .K_BACKSPACE -- "^?"
  else if ch = 27 then .K_ESC        -- "^["
  else if ch = 13 then .K_ENTER      -- "^M"
  else .K_OTHER

/-- The store entry a store index points at (lookups are always performed at
    valid indices by the verified code paths). -/
def entryAt (ctx : Context) (j : Nat) : Entry := ctx.entries.getD j Entry.dummy

/-- Whether the row at position `i` of the filtered view is a category header
    (`filtered_entries[i]->type == STATUS_TYPE_CATEGORY`). -/
def isCatRow (ctx : Context) (i : Nat) : Bool :=
  decide ((entryAt ctx (ctx.filtered.getD i 0)).etype = StatusType.category)

/-- Recursion worker for `findFromStride`; structural recursion on a fuel
    counter in place of well-founded recursion, so that the function reduces
    inside the kernel.  The caller passes fuel exceeding the maximal number
    of scan steps, so the `0` case is never the value of a scan. -/
def findFromStrideFuel (pred : Nat → Bool) (count s : Nat) : Nat → Nat → Option Nat
  | _, 0 => none
  | i, fuel + 1 =>
    if i < count then
      if pred i then some i else findFromStrideFuel pred count s (i + (s + 1)) fuel
    else none

/-- Upward index scan: first `i` with `i < count` and `pred i`, visiting
    `i, i + (s+1), i + 2*(s+1), …` and answering `none` as soon as the scan
    runs past `count`.  With `s = 0` this is the shape of the various
    `for (i = …; i < count; ++i)` search loops of main.c; with `s + 1 = d`
    it describes the index walk of `gitsi_select_entry` for direction `d`. -/
def findFromStride (pred : Nat → Bool) (count s i : Nat) : Option Nat :=
  findFromStrideFuel pred count s i (count + 1)

/-- Recursion worker for `findDownStride` (fuel as in
    `findFromStrideFuel`). -/
def findDownStrideFuel (pred : Nat → Bool) (s : Nat) : Int → Nat → Option Nat
  | _, 0 => none
  | i, fuel + 1 =>
    if i < 0 then none
    else if pred i.toNat then some i.toNat
    else findDownStrideFuel pred s (i - (s + 1)) fuel

/-- Downward index scan: from `i` step down by `s+1`, first hit of `pred`,
    `none` once the index would run below zero.  Describes the index walk of
    `gitsi_select_entry` for direction `-(s+1)`. -/
def findDownStride (pred : Nat → Bool) (s : Nat) (i : Int) : Option Nat :=
  findDownStrideFuel pred s i (i.toNat + 1)

/-- Model of `gitsi_select_first_entry`: first non-category row of the filtered view
    becomes the selection; if there is none the position is left untouched. -/
def gitsi_select_first_entry (ctx : Context) : Context :=
  match findFromStride (fun i => !isCatRow ctx i) ctx.filtered.length 0 0 with
  | some i => { ctx with position := some (ctx.filtered.getD i 0) }
  | none => ctx

/-- Model of `gitsi_select_category`: first row of the given type becomes the
    selection; no-op for the category type itself or when there is none. -/
def gitsi_select_category (ctx : Context) (t : StatusType) : Context :=
  if t = StatusType.category then ctx
  else
    match findFromStride (fun i => decide ((entryAt ctx (ctx.filtered.getD i 0)).etype = t))
        ctx.filtered.length 0 0 with
    | some i => { ctx with position := some (ctx.filtered.getD i 0) }
    | none => ctx

/-- Model of `gitsi_select_last_entry`: unconditionally selects
    `filtered_entries[filtered_entry_count - 1]`.  On an empty view the
    `size_t` subtraction wraps around and the access is out of bounds
    (`none`). -/
def gitsi_select_last_entry (ctx : Context) : Option Context :=
  match ctx.filtered.getLast? with
  | some j => some { ctx with position := some j }
  | none => none

/-- Model of `gitsi_position_index`: linear position of `position` in the filtered
    view (pointer comparison), `0` when it is absent. -/
def gitsi_position_index (ctx : Context) : Nat :=
  match findFromStride (fun i => decide (ctx.position = some (ctx.filtered.getD i 0)))
      ctx.filtered.length 0 0 with
  | some i => i
  | none => 0

/-- Recursion worker for `gitsi_select_entry_by_index` (fuel as in
    `findFromStrideFuel`). -/
def selectEntryByIndexFuel (ctx : Context) : Nat → Nat → Option Context
  | _, 0 => none
  | index, fuel + 1 =>
    if ctx.filtered.length = 0 then some ctx
    else if ctx.filtered.length < index then
      some { ctx with position := ctx.filtered.getLast? }
    else
      match ctx.filtered.get? index with
      | none => none
      | some j =>
        if isCatRow ctx index then selectEntryByIndexFuel ctx (index + 1) fuel
        else some { ctx with position := some j }

/-- Model of `gitsi_select_entry_by_index`: empty view is a no-op; `index` strictly
    greater than the count clamps to the last row; a category row recurses to
    `index + 1`.  The C bound check is `index > filtered_entry_count`, so
    `index = filtered_entry_count` falls through to the array access
    `filtered_entries[index]`, which is one past the end: that execution is
    `none`. -/
def gitsi_select_entry_by_index (ctx : Context) (index : Nat) : Option Context :=
  selectEntryByIndexFuel ctx index (ctx.filtered.length + 2)

/-- The search loop at the top of `gitsi_select_entry`: first view position
    holding the selected pointer, category rows skipped by `continue`. -/
def findEntryPos (ctx : Context) : Option Nat :=
  findFromStride
    (fun i => !isCatRow ctx i && decide (ctx.position = some (ctx.filtered.getD i 0)))
    ctx.filtered.length 0 0

/-- Sets `marked := true` on store entry `j` (the visual mark mode write
    `filtered_entries[position]->marked = true`). -/
def markStoreEntry (ctx : Context) (j : Nat) : Context :=
  { ctx with entries := ctx.entries.set j { (ctx.entries.getD j Entry.dummy) with marked := true } }

/-- The `while (true)` loop of `gitsi_select_entry`.  Each iteration advances
    `position` by `direction`; in visual mark mode the row arrived at is
    marked *before* the bounds checks, so an out-of-range index is an
    out-of-bounds write (`none`).  Then: below zero wraps via
    `gitsi_select_last_entry`, past the end wraps via
    `gitsi_select_first_entry`, a category row continues the walk, and any
    other row becomes the selection.  The fuel only bounds the recursion; for
    any direction `d ≠ 0` the loop finishes before `filtered_entry_count + 1`
    iterations, so the fuel is never exhausted on the executions the
    theorems describe. -/
def selectEntryLoop (d : Int) : Context → Int → Nat → Option Context
  | _, _, 0 => none
  | ctx, pos, fuel + 1 =>
    let pos' := pos + d
    let octx : Option Context :=
      if ctx.is_visual_mark_mode then
        if pos' < 0 then none
        else
          match ctx.filtered.get? pos'.toNat with
          | none => none
          | some j => some (markStoreEntry ctx j)
      else some ctx
    match octx with
    | none => none
    | some c =>
      if pos' < 0 then gitsi_select_last_entry c
      else if (c.filtered.length : Int) ≤ pos' then some (gitsi_select_first_entry c)
      else
        match c.filtered.get? pos'.toNat with
        | none => none
        | some j =>
          if isCatRow c pos'.toNat then selectEntryLoop d c pos' fuel
          else some { c with position := some j }

/-- Model of `gitsi_select_entry`: locate the selection in the filtered view (category
    rows skipped); if it is gone, fall back to `gitsi_select_first_entry`,
    otherwise run the walk loop. -/
def gitsi_select_entry (ctx : Context) (d : Int) : Option Context :=
  match findEntryPos ctx with
  | none => some (gitsi_select_first_entry ctx)
  | some p => selectEntryLoop d ctx (p : Int) (ctx.filtered.length + 1)

/-- Model of `strstr(hay, needle) != NULL`: some suffix of the haystack starts with
    the needle (case-sensitive, empty needle always matches). -/
def strstrB (hay needle : List Char) : Bool :=
  if needle.isPrefixOf hay then true
  else
    match hay with
    | [] => false
    | _ :: t => strstrB t needle

/-- The row condition of `gitsi_filter_entries`: empty search term, or
    filename contains the term, or the row is a headline. -/
def entry_matches (term : String) (e : Entry) : Bool :=
  decide (term = "") || strstrB e.filename.data term.data
    || decide (e.etype = StatusType.category)

/-- Model of `gitsi_filter_entries`: rebuilds `filtered_entries` as the store-order
    subsequence of entries passing `entry_matches`. -/
def gitsi_filter_entries (ctx : Context) : Context :=
  { ctx with
    filtered := (List.range ctx.entries.length).filter
      (fun i => entry_matches ctx.search_term (ctx.entries.getD i Entry.dummy)) }

/-- Model of `gitsi_update_status`: `gitsi_get_repository_status` frees the old
    entries (clearing `position`) and installs the fresh backend snapshot;
    an empty snapshot makes the program print "No entries found" and exit
    (`none`); otherwise the view is refiltered. -/
def gitsi_update_status (ctx : Context) (snapshot : List Entry) : Option Context :=
  let c1 : Context := { ctx with position := none, entries := snapshot, filtered := [] }
  if c1.entries.length = 0 then none
  else some (gitsi_filter_entries c1)

/-- Model of `gitsi_process_search`: edits the search term and refilters; Enter leaves
    search mode and, when the selection fell out of the filtered view, selects
    the first entry (without refiltering); over-long terms are ignored. -/
def gitsi_process_search (ctx : Context) (key : key_stroke) (ch : Nat) : Context :=
  if 512 < ctx.search_term.length then ctx
  else if key = .K_ENTER then
    let c := { ctx with is_search := false }
    match c.position with
    | none => c
    | some p => if c.filtered.contains p then c else gitsi_select_first_entry c
  else if key = .K_ESC then
    gitsi_filter_entries { ctx with is_search := false, search_term := "" }
  else if key = .K_BACKSPACE then
    gitsi_filter_entries { ctx with search_term := ctx.search_term.dropRight 1 }
  else
    gitsi_filter_entries { ctx with search_term := ctx.search_term.push (Char.ofNat ch) }

/-- Model of `gitsi_process_command_input`: edits the command buffer; Enter leaves
    command mode, runs the buffered git command externally and clears the
    buffer; the context is otherwise unchanged by the external run. -/
def gitsi_process_command_input (ctx : Context) (key : key_stroke) (ch : Nat) : Context :=
  if 512 < ctx.command_term.length then ctx
  else if key = .K_ENTER then
    { ctx with is_in_command_mode := false, command_term := "" }
  else if key = .K_ESC then
    { ctx with is_in_command_mode := false, command_term := "" }
  else if key = .K_BACKSPACE then
    { ctx with command_term := ctx.command_term.dropRight 1 }
  else
    { ctx with command_term := ctx.command_term.push (Char.ofNat ch) }

/-- The `K_M` branch of `gitsi_process_input`: toggle the mark of the
    selected entry (no-op on a `NULL` selection). -/
def gitsi_toggle_mark (ctx : Context) : Context :=
  match ctx.position with
  | none => ctx
  | some p =>
    { ctx with entries := (ctx.entries.set p
        { (ctx.entries.getD p Entry.dummy) with
            marked := !(ctx.entries.getD p Entry.dummy).marked }) }

/-- The `K_S_V` branch: when visual mark mode was off, first toggle the mark
    of the selection; then flip the mode flag. -/
def gitsi_toggle_visual (ctx : Context) : Context :=
  let c := if !ctx.is_visual_mark_mode ∧ ctx.position.isSome then gitsi_toggle_mark ctx else ctx
  { c with is_visual_mark_mode := !c.is_visual_mark_mode }

/-- The `K_S_M` branch (mark section): when the selection is a non-category
    entry, every store entry of the selection's type is set to the negation
    of the selection's current mark. -/
def gitsi_mark_section (ctx : Context) : Context :=
  match ctx.position with
  | none => ctx
  | some p =>
    let anchor := ctx.entries.getD p Entry.dummy
    if anchor.etype = StatusType.category then ctx
    else
      { ctx with entries := (ctx.entries.map
            (fun e => if e.etype = anchor.etype then { e with marked := !anchor.marked } else e)) }

/-- The `K_ESC` branch in normal mode: a non-empty search term is cleared and
    the view refiltered; otherwise an active visual mark mode is cancelled
    and every store entry unmarked. -/
def gitsi_escape_normal (ctx : Context) : Context :=
  if ctx.search_term ≠ "" then
    gitsi_filter_entries { ctx with search_term := "" }
  else if ctx.is_visual_mark_mode then
    { ctx with is_visual_mark_mode := false
               entries := (ctx.entries.map (fun e => { e with marked := false })) }
  else ctx

/-- The shared shape of the `K_S`, `K_U` and (confirmed) `K_X` branches:
    remember the selection's ordinal position in the filtered view, let the
    backend mutate the repository (external; its outcome is the `snapshot`
    parameter), rebuild everything and re-resolve the selection purely by the
    remembered ordinal via `gitsi_select_entry_by_index`. -/
def gitsi_mutate_flow (ctx : Context) (snapshot : List Entry) : Option Context :=
  let pos := gitsi_position_index ctx
  (gitsi_update_status ctx snapshot).bind (fun c => gitsi_select_entry_by_index c pos)

/-- Model of `atoi` on the digit buffer: the stack holds only codes 48–57, so this is
    plain decimal accumulation. -/
def atoi_digits (s : List Nat) : Nat :=
  s.foldl (fun a c => a * 10 + (c - 48)) 0

/-- Repetition, `count`-fold, of `gitsi_select_entry` (the
    `for (i = 0; i < iteration_count; i++)` loops of the router). -/
def iterateSelect (d : Int) : Nat → Context → Option Context
  | 0, c => some c
  | n + 1, c => (gitsi_select_entry c d).bind (iterateSelect d n)

/-- Model of `gitsi_process_input`.  `snapshot` stands for the backend status the
    repository would report after the branch's external git action, and
    `answer` for the user's reply to a yes/no dialog.  The result is the
    dispatched branch followed by the number-stack clearing at the end of the
    function; branches that `return` early (digit overflow, quit, the `K_X`
    guards) skip that clearing, and executions that exit the process or
    access out of bounds are `none`. -/
def gitsi_process_input (ctx : Context) (snapshot : List Entry) (answer : Bool)
    (input_char : Nat) : Option Context :=
  let key := translate_key input_char
  -- pairs the branch result with the `early return` flag
  let body : Option (Context × Bool) :=
    if ctx.is_search then some (gitsi_process_search ctx key input_char, false)
    else if ctx.is_in_command_mode then some (gitsi_process_command_input ctx key input_char, false)
    else if ctx.is_in_help then some ({ ctx with is_in_help := false }, false)
    else
      let iteration_count := if ctx.number_stack.length > 0 then atoi_digits ctx.number_stack else 1
      if key = .K_OTHER ∧ 48 ≤ input_char ∧ input_char ≤ 57 then
        if ctx.number_stack.length ≥ 7 then some (ctx, true)
        else some ({ ctx with number_stack := ctx.number_stack ++ [input_char] }, false)
      else if key = .K_SLASH then some ({ ctx with is_search := true }, false)
      else if key = .K_ESC then some (gitsi_escape_normal ctx, false)
      else if key = .K_Q then some ({ ctx with sigint := true }, true)
      else if key = .K_H ∨ key = .K_HELP then some ({ ctx with is_in_help := true }, false)
      else if key = .K_J ∨ key = .K_ARROW_DOWN then
        (iterateSelect 1 iteration_count ctx).map (fun c => (c, false))
      else if key = .K_K ∨ key = .K_ARROW_UP then
        (iterateSelect (-1) iteration_count ctx).map (fun c => (c, false))
      else if key = .K_C_D then
        (iterateSelect 10 iteration_count ctx).map (fun c => (c, false))
      else if key = .K_C_U then
        (iterateSelect (-10) iteration_count ctx).map (fun c => (c, false))
      else if key = .K_S_G then
        (gitsi_select_last_entry ctx).map (fun c => (c, false))
      else if key = .K_G then some (gitsi_select_first_entry ctx, false)
      else if key = .K_S ∨ key = .K_U then
        -- gitsi_stage_entry / gitsi_unstage_entry dereference a NULL selection
        match ctx.position with
        | none => none
        | some _ => (gitsi_mutate_flow ctx snapshot).map (fun c => (c, false))
      else if key = .K_S_S ∨ key = .K_S_U then
        -- gitsi_action_on_marked's cursor recovery is overwritten by the
        -- rebuild, which frees the entries it repositioned into
        (gitsi_update_status ctx snapshot).map (fun c => (c, false))
      else if key = .K_I ∨ key = .K_E then
        match ctx.position with
        | none => some (ctx, false)
        | some _ => (gitsi_update_status ctx snapshot).map (fun c => (c, false))
      else if key = .K_R ∨ key = .K_C ∨ key = .K_S_C ∨ key = .K_P ∨ key = .K_S_P then
        (gitsi_update_status ctx snapshot).map (fun c => (c, false))
      else if key = .K_X then
        match ctx.position with
        | none => some (ctx, true)
        | some p =>
          if (ctx.entries.getD p Entry.dummy).etype = StatusType.untracked then some (ctx, true)
          else if answer then
            (gitsi_mutate_flow { ctx with position := none }
                snapshot).map (fun c => (c, false))
          else some (ctx, false)
      else if key = .K_D then some (ctx, false)
      else if key = .K_COMMAND then some ({ ctx with is_in_command_mode := true }, false)
      else if key = .K_S_1 then some (gitsi_select_category ctx StatusType.indexed, false)
      else if key = .K_S_2 then some (gitsi_select_category ctx StatusType.workspace, false)
      else if key = .K_S_3 then some (gitsi_select_category ctx StatusType.untracked, false)
      else if key = .K_M then some (gitsi_toggle_mark ctx, false)
      else if key = .K_S_V then some (gitsi_toggle_visual ctx, false)
      else if key = .K_S_M then some (gitsi_mark_section ctx, false)
      else some (ctx, false)
  match body with
  | none => none
  | some (c, early) =>
    if early then some c
    else if c.number_stack.length > 0 ∧ key ≠ .K_OTHER then
      some { c with number_stack := [] }
    else some c

/-- Computes `a - b` in `size_t` arithmetic (wraparound modulo `2^64`). -/
def wrapSub64 (a b : Nat) : Nat := (a + 2 ^ 64 - b % 2 ^ 64) % 2 ^ 64

/-- Truncation of a `size_t` value to a signed 32-bit `int`. -/
def toInt32 (n : Nat) : Int :=
  let m : Nat := n % 2 ^ 32
  if m < 2 ^ 31 then (m : Int) else (m : Int) - 2 ^ 32

/-- The scroll-start computation of `gitsi_print_list`:
    `list_height = max_y - 2`, `lowerlimit = (int)(cursor_pos - list_height/2)`,
    `upperlimit = (int)(count - list_height/2)`,
    `start_pos = MAX(MIN(lowerlimit, upperlimit), 0)`, overridden to `0`
    whenever everything fits on one page. -/
def gitsi_scroll_start (ctx : Context) (max_y : Nat) : Nat :=
  let count := ctx.filtered.length
  let cursor_pos := gitsi_position_index ctx
  let list_height := wrapSub64 max_y 2
  let lowerlimit := toInt32 (wrapSub64 cursor_pos (list_height / 2))
  let upperlimit := toInt32 (wrapSub64 count (list_height / 2))
  let start_pos := (max (min lowerlimit upperlimit) 0).toNat
  if count < list_height then 0 else start_pos

/-- Modelled from the spec: the scroll-start formula the specification
    claims, `start = clamp(selectedOrdinal - H/2, 0, max(0, totalRows - H))`
    with `start = 0` when `totalRows < H`. -/
def spec_scroll_start (ctx : Context) (max_y : Nat) : Nat :=
  let count := ctx.filtered.length
  let cursor_pos := gitsi_position_index ctx
  let H := max_y - 2
  if count < H then 0
  else (max (min ((cursor_pos : Int) - ((H / 2 : Nat) : Int)) (max 0 ((count : Int) - (H : Int)))) 0).toNat

/-- From view position `q`, the view position reached after `n` further
    steps to the next selectable (non-category) row. -/
def nthSelFrom (ctx : Context) : Nat → Nat → Option Nat
  | q, 0 => some q
  | q, n + 1 =>
    match findFromStride (fun i => !isCatRow ctx i) ctx.filtered.length 0 (q + 1) with
    | some q2 => nthSelFrom ctx q2 n
    | none => none

/-- View position of the `n`-th selectable (non-category) row of the
    filtered view: the first non-category position, then `n` times the next
    non-category position after the previous one. -/
def nthSel (ctx : Context) (n : Nat) : Option Nat :=
  match findFromStride (fun i => !isCatRow ctx i) ctx.filtered.length 0 0 with
  | some q0 => nthSelFrom ctx q0 n
  | none => none

/-! Concrete contexts used to evaluate the code on explicit inputs. -/

/-- Header row constructor (category entries carry a `NULL` description,
    modelled as `""`). -/
def hdrEntry (n : String) : Entry :=
  { filename := n, description := "", etype := StatusType.category, marked := false }

/-- Item row constructor. -/
def itemEntry (n : String) (t : StatusType) (m : Bool) : Entry :=
  { filename := n, description := "x", etype := t, marked := m }

/-- The initial context of `main` (empty store, all modes off). -/
def baseCtx : Context :=
  { entries := [], search_term := "", filtered := [], position := none, command_term := "",
    is_search := false, is_in_command_mode := false, is_visual_mark_mode := false,
    is_in_help := false, number_stack := [], sigint := false }

/-- Store [Header Index, a.c, b.c], everything in view, selection on b.c
    (view position 2). -/
def ctxC1 : Context :=
  { baseCtx with
    entries := [hdrEntry "Index", itemEntry "a.c" StatusType.indexed false,
      itemEntry "b.c" StatusType.indexed false],
    filtered := [0, 1, 2], position := some 2 }

/-- Backend snapshot after the mutation: b.c still present (now at store
    index 1) and a new item x.c at store index 2. -/
def snapC1 : List Entry :=
  [hdrEntry "Index", itemEntry "b.c" StatusType.indexed false,
    itemEntry "x.c" StatusType.indexed false]

/-- The context after the rebuild of `ctxC1` with `snapC1`. -/
def ctxC1after : Context :=
  gitsi_filter_entries { ctxC1 with position := none, entries := snapC1, filtered := [] }

/-- Visual mark mode on, selection on the Item before a Header. -/
def ctxC2 : Context :=
  { baseCtx with
    entries := [itemEntry "a.c" StatusType.indexed false, hdrEntry "Workspace",
      itemEntry "b.c" StatusType.workspace false],
    filtered := [0, 1, 2], position := some 0, is_visual_mark_mode := true }

/-- Visual mark mode on, selection on the last row of the view. -/
def ctxC3 : Context :=
  { baseCtx with
    entries := [hdrEntry "Index", itemEntry "a.c" StatusType.indexed false],
    filtered := [0, 1], position := some 1, is_visual_mark_mode := true }

/-- Visual mark mode off: [Header, a, Header, b, c] all in view, no
    selection yet. -/
def ctxC3w : Context :=
  { baseCtx with
    entries := [hdrEntry "Index", itemEntry "a.c" StatusType.indexed false,
      hdrEntry "Workspace", itemEntry "b.c" StatusType.workspace false,
      itemEntry "c.c" StatusType.workspace false],
    filtered := [0, 1, 2, 3, 4], position := some 1 }

/-- Searching for "main" keeps both Headers but drops the only Workspace
    item, so the Filtered View ends in a Header row. -/
def ctxC5 : Context :=
  gitsi_filter_entries
    { baseCtx with
      entries := [hdrEntry "Index", itemEntry "main.c" StatusType.indexed false,
        hdrEntry "Workspace", itemEntry "other.c" StatusType.workspace false],
      search_term := "main" }

/-- A single-Item view. -/
def ctxC6 : Context :=
  { baseCtx with
    entries := [itemEntry "a.c" StatusType.indexed false],
    filtered := [0], position := some 0 }

/-- Store [Header, a, b] fully in view, selection on a. -/
def ctxC7 : Context :=
  { baseCtx with
    entries := [hdrEntry "Index", itemEntry "a.c" StatusType.indexed false,
      itemEntry "b.c" StatusType.indexed false],
    filtered := [0, 1, 2], position := some 1 }

/-- Category Index with one marked and one unmarked Item; selection on the
    unmarked one. -/
def ctxC8 : Context :=
  { baseCtx with
    entries := [hdrEntry "Index", itemEntry "a.c" StatusType.indexed true,
      itemEntry "b.c" StatusType.indexed false],
    filtered := [0, 1, 2], position := some 2 }

/-- Twenty rows (one Header, nineteen Items), selection on the last row
    (view ordinal 19). -/
def ctxC9 : Context :=
  { baseCtx with
    entries := hdrEntry "Index" :: List.replicate 19 (itemEntry "a.c" StatusType.indexed false),
    filtered := List.range 20, position := some 19 }


/-! Scan lemmas: the fuel workers are insensitive to the exact fuel once it
    exceeds the number of remaining scan steps, and the scans are
    characterised by first-hit properties. -/

theorem findFromStrideFuel_congr (pred : Nat → Bool) (count s : Nat) :
    ∀ fuel fuel' i, count - i < fuel → count - i < fuel' →
      findFromStrideFuel pred count s i fuel = findFromStrideFuel pred count s i fuel' := by
  intro fuel
  induction fuel with
  | zero => intro fuel' i h _; omega
  | succ fuel ih =>
    intro fuel' i h h'
    cases fuel' with
    | zero => omega
    | succ fuel' =>
      simp only [findFromStrideFuel]
      by_cases hi : i < count
      · rw [if_pos hi, if_pos hi]
        by_cases hp : pred i
        · rw [if_pos hp, if_pos hp]
        · rw [if_neg hp, if_neg hp]
          exact ih fuel' (i + (s + 1)) (by omega) (by omega)
      · rw [if_neg hi, if_neg hi]

theorem findFromStride_unfold (pred : Nat → Bool) (count s i : Nat) :
    findFromStride pred count s i =
      if i < count then
        (if pred i then some i else findFromStride pred count s (i + (s + 1)))
      else none := by
  have step : findFromStrideFuel pred count s i (count + 1) =
      if i < count then
        (if pred i then some i else findFromStrideFuel pred count s (i + (s + 1)) count)
      else none := rfl
  rw [findFromStride, step]
  by_cases hi : i < count
  · rw [if_pos hi, if_pos hi]
    by_cases hp : pred i
    · rw [if_pos hp, if_pos hp]
    · rw [if_neg hp, if_neg hp, findFromStride]
      exact findFromStrideFuel_congr pred count s count (count + 1) (i + (s + 1))
        (by omega) (by omega)
  · rw [if_neg hi, if_neg hi]

theorem findFromStrideFuel_some (pred : Nat → Bool) (count s : Nat) :
    ∀ fuel i q, findFromStrideFuel pred count s i fuel = some q →
      i ≤ q ∧ q < count ∧ pred q = true ∧
        ∃ k, q = i + k * (s + 1) ∧ ∀ m, m < k → pred (i + m * (s + 1)) = false := by
  intro fuel
  induction fuel with
  | zero =>
    intro i q h
    exact absurd h (by simp [findFromStrideFuel])
  | succ fuel ih =>
    intro i q h
    simp only [findFromStrideFuel] at h
    by_cases hi : i < count
    · rw [if_pos hi] at h
      by_cases hp : pred i
      · rw [if_pos hp] at h
        obtain rfl : i = q := Option.some.inj h
        exact ⟨le_refl _, hi, hp, 0, by omega, by omega⟩
      · rw [if_neg hp] at h
        obtain ⟨h1, h2, h3, k, hk, hmin⟩ := ih (i + (s + 1)) q h
        have hsm : (k + 1) * (s + 1) = k * (s + 1) + (s + 1) := Nat.succ_mul k (s + 1)
        refine ⟨by omega, h2, h3, k + 1, by omega, ?_⟩
        intro m hm
        cases m with
        | zero => simpa using Bool.eq_false_iff.mpr hp
        | succ m =>
          have := hmin m (by omega)
          have e : i + (m + 1) * (s + 1) = i + (s + 1) + m * (s + 1) := by
            rw [Nat.succ_mul]
            ring
          rw [e]
          exact this
    · rw [if_neg hi] at h
      exact absurd h (by simp)

theorem findFromStride_some {pred : Nat → Bool} {count s i q : Nat}
    (h : findFromStride pred count s i = some q) :
    i ≤ q ∧ q < count ∧ pred q = true ∧
      ∃ k, q = i + k * (s + 1) ∧ ∀ m, m < k → pred (i + m * (s + 1)) = false :=
  findFromStrideFuel_some pred count s (count + 1) i q h

theorem findFromStrideFuel_none (pred : Nat → Bool) (count s : Nat) :
    ∀ fuel i, count - i < fuel → findFromStrideFuel pred count s i fuel = none →
      ∀ k, i + k * (s + 1) < count → pred (i + k * (s + 1)) = false := by
  intro fuel
  induction fuel with
  | zero => intro i h _; omega
  | succ fuel ih =>
    intro i hfuel h
    simp only [findFromStrideFuel] at h
    by_cases hi : i < count
    · rw [if_pos hi] at h
      by_cases hp : pred i
      · rw [if_pos hp] at h
        exact absurd h (by simp)
      · rw [if_neg hp] at h
        intro k hk
        cases k with
        | zero => simpa using Bool.eq_false_iff.mpr hp
        | succ k =>
          have hsm : (k + 1) * (s + 1) = k * (s + 1) + (s + 1) := Nat.succ_mul k (s + 1)
          have := ih (i + (s + 1)) (by omega) h k (by omega)
          have e : i + (k + 1) * (s + 1) = i + (s + 1) + k * (s + 1) := by
            rw [hsm]
            ring
          rw [e]
          exact this
    · intro k hk
      have hsm : i ≤ i + k * (s + 1) := by omega
      omega

theorem findFromStride_none {pred : Nat → Bool} {count s i : Nat}
    (h : findFromStride pred count s i = none) :
    ∀ k, i + k * (s + 1) < count → pred (i + k * (s + 1)) = false :=
  findFromStrideFuel_none pred count s (count + 1) i (by omega) h

theorem findFromStrideFuel_eq_some (pred : Nat → Bool) (count s : Nat) :
    ∀ k fuel i q, count - i < fuel → q = i + k * (s + 1) → q < count → pred q = true →
      (∀ m, m < k → pred (i + m * (s + 1)) = false) →
      findFromStrideFuel pred count s i fuel = some q := by
  intro k
  induction k with
  | zero =>
    intro fuel i q hfuel hq hcount hpq hmin
    obtain rfl : q = i := by omega
    cases fuel with
    | zero => omega
    | succ fuel =>
      simp only [findFromStrideFuel]
      rw [if_pos hcount, if_pos hpq]
  | succ k ih =>
    intro fuel i q hfuel hq hcount hpq hmin
    have hsm : (k + 1) * (s + 1) = k * (s + 1) + (s + 1) := Nat.succ_mul k (s + 1)
    have hi : i < count := by omega
    have hpi : pred i = false := by simpa using hmin 0 (by omega)
    cases fuel with
    | zero => omega
    | succ fuel =>
      simp only [findFromStrideFuel]
      rw [if_pos hi, if_neg (by simp [hpi])]
      refine ih fuel (i + (s + 1)) q (by omega) (by omega) hcount hpq ?_
      intro m hm
      have := hmin (m + 1) (by omega)
      have e : i + (m + 1) * (s + 1) = i + (s + 1) + m * (s + 1) := by
        rw [Nat.succ_mul]
        ring
      rw [e] at this
      exact this

theorem findFromStride_eq_some {pred : Nat → Bool} {count s i q k : Nat}
    (hq : q = i + k * (s + 1)) (hcount : q < count) (hpq : pred q = true)
    (hmin : ∀ m, m < k → pred (i + m * (s + 1)) = false) :
    findFromStride pred count s i = some q :=
  findFromStrideFuel_eq_some pred count s k (count + 1) i q (by omega) hq hcount hpq hmin

theorem findFromStrideFuel_eq_none (pred : Nat → Bool) (count s : Nat) :
    ∀ fuel i, count - i < fuel →
      (∀ k, i + k * (s + 1) < count → pred (i + k * (s + 1)) = false) →
      findFromStrideFuel pred count s i fuel = none := by
  intro fuel
  induction fuel with
  | zero => intro i h _; omega
  | succ fuel ih =>
    intro i hfuel h
    simp only [findFromStrideFuel]
    by_cases hi : i < count
    · rw [if_pos hi]
      have hpi : pred i = false := by simpa using h 0 (by simpa using hi)
      rw [if_neg (by simp [hpi])]
      refine ih (i + (s + 1)) (by omega) ?_
      intro k hk
      have hsm : (k + 1) * (s + 1) = k * (s + 1) + (s + 1) := Nat.succ_mul k (s + 1)
      have := h (k + 1) (by omega)
      have e : i + (k + 1) * (s + 1) = i + (s + 1) + k * (s + 1) := by
        rw [hsm]
        ring
      rw [e] at this
      exact this
    · rw [if_neg hi]

theorem findFromStride_eq_none {pred : Nat → Bool} {count s i : Nat}
    (h : ∀ k, i + k * (s + 1) < count → pred (i + k * (s + 1)) = false) :
    findFromStride pred count s i = none :=
  findFromStrideFuel_eq_none pred count s (count + 1) i (by omega) h

theorem findDownStrideFuel_neg (pred : Nat → Bool) (s : Nat) {i : Int} (h : i < 0) :
    ∀ fuel, findDownStrideFuel pred s i fuel = none := by
  intro fuel
  cases fuel with
  | zero => rfl
  | succ fuel => simp only [findDownStrideFuel]; rw [if_pos h]

theorem findDownStrideFuel_congr (pred : Nat → Bool) (s : Nat) :
    ∀ fuel fuel' (i : Int), i.toNat < fuel → i.toNat < fuel' →
      findDownStrideFuel pred s i fuel = findDownStrideFuel pred s i fuel' := by
  intro fuel
  induction fuel with
  | zero => intro fuel' i h _; omega
  | succ fuel ih =>
    intro fuel' i h h'
    cases fuel' with
    | zero => omega
    | succ fuel' =>
      simp only [findDownStrideFuel]
      by_cases h0 : i < 0
      · rw [if_pos h0, if_pos h0]
      · rw [if_neg h0, if_neg h0]
        by_cases hp : pred i.toNat
        · rw [if_pos hp, if_pos hp]
        · rw [if_neg hp, if_neg hp]
          by_cases h2 : i - (s + 1) < 0
          · rw [findDownStrideFuel_neg pred s h2, findDownStrideFuel_neg pred s h2]
          · exact ih fuel' (i - (s + 1)) (by omega) (by omega)

theorem findDownStride_unfold (pred : Nat → Bool) (s : Nat) (i : Int) :
    findDownStride pred s i =
      if i < 0 then none
      else if pred i.toNat then some i.toNat
      else findDownStride pred s (i - (s + 1)) := by
  have step : findDownStrideFuel pred s i (i.toNat + 1) =
      if i < 0 then none
      else if pred i.toNat then some i.toNat
      else findDownStrideFuel pred s (i - (s + 1)) i.toNat := rfl
  rw [findDownStride, step]
  by_cases h0 : i < 0
  · rw [if_pos h0, if_pos h0]
  · rw [if_neg h0, if_neg h0]
    by_cases hp : pred i.toNat
    · rw [if_pos hp, if_pos hp]
    · rw [if_neg hp, if_neg hp, findDownStride]
      by_cases h2 : i - (s + 1) < 0
      · rw [findDownStrideFuel_neg pred s h2, findDownStrideFuel_neg pred s h2]
      · exact findDownStrideFuel_congr pred s i.toNat ((i - (s + 1)).toNat + 1) (i - (s + 1))
          (by omega) (by omega)

theorem selectEntryByIndexFuel_congr (ctx : Context) :
    ∀ fuel fuel' index, ctx.filtered.length + 1 - index < fuel →
      ctx.filtered.length + 1 - index < fuel' →
      selectEntryByIndexFuel ctx index fuel = selectEntryByIndexFuel ctx index fuel' := by
  intro fuel
  induction fuel with
  | zero => intro fuel' index h _; omega
  | succ fuel ih =>
    intro fuel' index h h'
    cases fuel' with
    | zero => omega
    | succ fuel' =>
      simp only [selectEntryByIndexFuel]
      by_cases h0 : ctx.filtered.length = 0
      · rw [if_pos h0, if_pos h0]
      · rw [if_neg h0, if_neg h0]
        by_cases h1 : ctx.filtered.length < index
        · rw [if_pos h1, if_pos h1]
        · rw [if_neg h1, if_neg h1]
          cases hg : ctx.filtered.get? index with
          | none => rfl
          | some j =>
            have hidx : index < ctx.filtered.length := (List.get?_eq_some.mp hg).1
            dsimp only
            by_cases hc : isCatRow ctx index
            · rw [if_pos hc, if_pos hc]
              exact ih fuel' (index + 1) (by omega) (by omega)
            · rw [if_neg hc, if_neg hc]

theorem gitsi_select_entry_by_index_unfold (ctx : Context) (index : Nat) :
    gitsi_select_entry_by_index ctx index =
      if ctx.filtered.length = 0 then some ctx
      else if ctx.filtered.length < index then
        some { ctx with position := ctx.filtered.getLast? }
      else
        match ctx.filtered.get? index with
        | none => none
        | some j =>
          if isCatRow ctx index then gitsi_select_entry_by_index ctx (index + 1)
          else some { ctx with position := some j } := by
  have step : selectEntryByIndexFuel ctx index (ctx.filtered.length + 2) =
      if ctx.filtered.length = 0 then some ctx
      else if ctx.filtered.length < index then
        some { ctx with position := ctx.filtered.getLast? }
      else
        match ctx.filtered.get? index with
        | none => none
        | some j =>
          if isCatRow ctx index then selectEntryByIndexFuel ctx (index + 1) (ctx.filtered.length + 1)
          else some { ctx with position := some j } := rfl
  rw [gitsi_select_entry_by_index, step]
  by_cases h0 : ctx.filtered.length = 0
  · rw [if_pos h0, if_pos h0]
  · rw [if_neg h0, if_neg h0]
    by_cases h1 : ctx.filtered.length < index
    · rw [if_pos h1, if_pos h1]
    · rw [if_neg h1, if_neg h1]
      cases hg : ctx.filtered.get? index with
      | none => rfl
      | some j =>
        have hidx : index < ctx.filtered.length := (List.get?_eq_some.mp hg).1
        dsimp only
        by_cases hc : isCatRow ctx index
        · rw [if_pos hc, if_pos hc, gitsi_select_entry_by_index]
          exact selectEntryByIndexFuel_congr ctx (ctx.filtered.length + 1)
            (ctx.filtered.length + 2) (index + 1) (by omega) (by omega)
        · rw [if_neg hc, if_neg hc]

theorem getD_of_get? {l : List Nat} {i j : Nat} (h : l.get? i = some j) :
    l.getD i 0 = j := by
  rw [List.getD_eq_getElem?_getD, ← List.get?_eq_getElem?, h]
  rfl

theorem gitsi_select_first_entry_entries (ctx : Context) :
    (gitsi_select_first_entry ctx).entries = ctx.entries := by
  rw [gitsi_select_first_entry]
  cases findFromStride (fun i => !isCatRow ctx i) ctx.filtered.length 0 0 <;> rfl

theorem gitsi_select_first_entry_filtered (ctx : Context) :
    (gitsi_select_first_entry ctx).filtered = ctx.filtered := by
  rw [gitsi_select_first_entry]
  cases findFromStride (fun i => !isCatRow ctx i) ctx.filtered.length 0 0 <;> rfl

theorem gitsi_select_last_entry_entries {ctx c : Context}
    (h : gitsi_select_last_entry ctx = some c) : c.entries = ctx.entries := by
  rw [gitsi_select_last_entry] at h
  cases hl : ctx.filtered.getLast? with
  | none => rw [hl] at h; exact absurd h (by simp)
  | some j => rw [hl] at h; cases Option.some.inj h; rfl

/-- With visual mark mode off, the walk loop of `gitsi_select_entry` with a
    positive direction `s + 1` is the upward index scan `findFromStride`: it
    lands on the first non-category row of the progression and wraps to the
    first entry once the progression leaves the view. -/
theorem selectEntryLoop_up (s : Nat) (ctx : Context)
    (hv : ctx.is_visual_mark_mode = false) :
    ∀ fuel (pos : Nat), ctx.filtered.length - pos + 1 ≤ fuel →
      selectEntryLoop ((s : Int) + 1) ctx (pos : Int) fuel =
        match findFromStride (fun i => !isCatRow ctx i) ctx.filtered.length s (pos + (s + 1)) with
        | some q => some { ctx with position := some (ctx.filtered.getD q 0) }
        | none => some (gitsi_select_first_entry ctx) := by
  intro fuel
  induction fuel with
  | zero => intro pos h; omega
  | succ fuel ih =>
    intro pos hfuel
    rw [selectEntryLoop]
    have hcast : (pos : Int) + ((s : Int) + 1) = ((pos + (s + 1) : Nat) : Int) := by
      push_cast
      ring
    simp only [hv, Bool.false_eq_true, if_false, hcast]
    set i := pos + (s + 1) with hi
    rw [if_neg (by omega : ¬ ((i : Nat) : Int) < 0)]
    by_cases hlt : i < ctx.filtered.length
    · rw [if_neg (by omega : ¬ ((ctx.filtered.length : Int) ≤ ((i : Nat) : Int)))]
      obtain ⟨j, hj⟩ : ∃ j, ctx.filtered.get? i = some j := by
        cases hg : ctx.filtered.get? i with
        | none =>
          have := List.get?_eq_none.mp hg
          omega
        | some j => exact ⟨j, rfl⟩
      simp only [Int.toNat_natCast, hj]
      by_cases hcat : isCatRow ctx i
      · rw [if_pos hcat]
        rw [findFromStride_unfold, if_pos hlt, if_neg (by simp [hcat])]
        have := ih i (by omega)
        simp only [hv] at this
        simpa using this
      · rw [if_neg hcat]
        rw [findFromStride_unfold, if_pos hlt, if_pos (by simp [hcat])]
        simp only [getD_of_get? hj]
    · rw [if_pos (by omega : ((ctx.filtered.length : Int) ≤ ((i : Nat) : Int)))]
      rw [findFromStride_unfold, if_neg hlt]

/-- With visual mark mode off, the walk loop with a negative direction
    `-(s + 1)` is the downward index scan `findDownStride`: it lands on the
    first non-category row of the descending progression and wraps via
    `gitsi_select_last_entry` once the progression runs below zero. -/
theorem selectEntryLoop_down (s : Nat) (ctx : Context)
    (hv : ctx.is_visual_mark_mode = false) :
    ∀ fuel (pos : Nat), pos < ctx.filtered.length → pos + 1 ≤ fuel →
      selectEntryLoop (-((s : Int) + 1)) ctx (pos : Int) fuel =
        match findDownStride (fun i => !isCatRow ctx i) s ((pos : Int) - ((s : Int) + 1)) with
        | some q => some { ctx with position := some (ctx.filtered.getD q 0) }
        | none => gitsi_select_last_entry ctx := by
  intro fuel
  induction fuel with
  | zero => intro pos hc h; omega
  | succ fuel ih =>
    intro pos hcount hfuel
    rw [selectEntryLoop]
    have hcast : (pos : Int) + (-((s : Int) + 1)) = (pos : Int) - ((s : Int) + 1) := by ring
    simp only [hv, Bool.false_eq_true, if_false, hcast]
    by_cases hneg : (pos : Int) - ((s : Int) + 1) < 0
    · rw [if_pos hneg]
      rw [findDownStride_unfold, if_pos hneg]
    · rw [if_neg hneg]
      have hsle : s + 1 ≤ pos := by omega
      have hcast2 : (pos : Int) - ((s : Int) + 1) = ((pos - (s + 1) : Nat) : Int) := by
        push_cast [hsle]
        ring
      set i := pos - (s + 1) with hi
      rw [if_neg (by rw [hcast2]; omega : ¬ ((ctx.filtered.length : Int) ≤ (pos : Int) - ((s : Int) + 1)))]
      have htn : ((pos : Int) - ((s : Int) + 1)).toNat = i := by
        rw [hcast2]
        simp
      rw [htn]
      obtain ⟨j, hj⟩ : ∃ j, ctx.filtered.get? i = some j := by
        cases hg : ctx.filtered.get? i with
        | none =>
          have := List.get?_eq_none.mp hg
          omega
        | some j => exact ⟨j, rfl⟩
      simp only [hj]
      rw [findDownStride_unfold, if_neg hneg, htn]
      by_cases hcat : isCatRow ctx i
      · rw [if_pos hcat, if_neg (by simp [hcat])]
        have := ih i (by omega) (by omega)
        simp only [hv] at this
        rw [hcast2]
        simpa using this
      · rw [if_neg hcat, if_pos (by simp [hcat])]
        simp only [getD_of_get? hj]


theorem strstrB_iff (needle : List Char) :
    ∀ hay : List Char, strstrB hay needle = true ↔ needle <:+: hay := by
  intro hay
  induction hay with
  | nil =>
    rw [strstrB]
    cases needle with
    | nil => simp
    | cons c t => simp [List.isPrefixOf]
  | cons c t ih =>
    rw [strstrB]
    by_cases hp : needle.isPrefixOf (c :: t)
    · simp only [hp, if_true]
      have : needle <+: c :: t := List.isPrefixOf_iff_prefix.mp hp
      simp [List.infix_cons_iff, this]
    · simp only [hp, if_false, Bool.false_eq_true]
      rw [ih, List.infix_cons_iff]
      constructor
      · exact Or.inr
      · rintro (h | h)
        · have hpre := List.isPrefixOf_iff_prefix.mpr h
          exact absurd hpre hp
        · exact h

theorem mem_filtered_iff (ctx : Context) (i : Nat) :
    i ∈ (gitsi_filter_entries ctx).filtered ↔
      i < ctx.entries.length ∧
        (ctx.search_term = "" ∨
          (ctx.entries.getD i Entry.dummy).etype = StatusType.category ∨
          ctx.search_term.data <:+: (ctx.entries.getD i Entry.dummy).filename.data) := by
  rw [gitsi_filter_entries]
  simp only [List.mem_filter, List.mem_range]
  rw [entry_matches]
  constructor
  · rintro ⟨h1, h2⟩
    refine ⟨h1, ?_⟩
    simp only [Bool.or_eq_true, decide_eq_true_eq] at h2
    rcases h2 with (h | h) | h
    · exact Or.inl h
    · exact Or.inr (Or.inr ((strstrB_iff _ _).mp h))
    · exact Or.inr (Or.inl h)
  · rintro ⟨h1, h2⟩
    refine ⟨h1, ?_⟩
    simp only [Bool.or_eq_true, decide_eq_true_eq]
    rcases h2 with h | h | h
    · exact Or.inl (Or.inl h)
    · exact Or.inr h
    · exact Or.inl (Or.inr ((strstrB_iff _ _).mpr h))

/-- C4: a row is in the Filtered View iff the search term is empty, the row
    is a Header, or the row is an Item whose path contains the term as a
    case-sensitive substring; the view lists store indices in store order
    without duplication, so relative Entry Store order is preserved. -/
theorem C4_filter_membership (ctx : Context) :
    ((gitsi_filter_entries ctx).filtered.Sublist (List.range ctx.entries.length)) ∧
      ∀ i : Nat,
        i ∈ (gitsi_filter_entries ctx).filtered ↔
          i < ctx.entries.length ∧
            (ctx.search_term = "" ∨
              (ctx.entries.getD i Entry.dummy).etype = StatusType.category ∨
              ctx.search_term.data <:+: (ctx.entries.getD i Entry.dummy).filename.data) := by
  constructor
  · rw [gitsi_filter_entries]
    exact List.filter_sublist _
  · exact mem_filtered_iff ctx

theorem gitsi_process_search_entries (ctx : Context) (key : key_stroke) (ch : Nat) :
    (gitsi_process_search ctx key ch).entries = ctx.entries := by
  rw [gitsi_process_search]
  by_cases h1 : 512 < ctx.search_term.length
  · rw [if_pos h1]
  · rw [if_neg h1]
    by_cases h2 : key = key_stroke.K_ENTER
    · rw [if_pos h2]
      cases hp : ({ ctx with is_search := false } : Context).position with
      | none => rfl
      | some p =>
        by_cases h3 : p ∈ ctx.filtered
        · simp [h3]
        · simp [h3, gitsi_select_first_entry_entries]
    · rw [if_neg h2]
      by_cases h3 : key = key_stroke.K_ESC
      · rw [if_pos h3, gitsi_filter_entries]
      · rw [if_neg h3]
        by_cases h4 : key = key_stroke.K_BACKSPACE
        · rw [if_pos h4, gitsi_filter_entries]
        · rw [if_neg h4, gitsi_filter_entries]

/-- C10: refiltering never touches the Entry Store: `gitsi_filter_entries`
    rebuilds only the `filtered_entries` array (entries, marks, selection,
    term, modes, digit stack unchanged), and any sequence of search-mode
    inputs leaves the store — and with it every mark flag — unchanged. -/
theorem C10_filter_frame (ctx : Context) :
    ((gitsi_filter_entries ctx).entries = ctx.entries ∧
      (gitsi_filter_entries ctx).position = ctx.position ∧
      (gitsi_filter_entries ctx).search_term = ctx.search_term ∧
      (gitsi_filter_entries ctx).is_visual_mark_mode = ctx.is_visual_mark_mode ∧
      (gitsi_filter_entries ctx).number_stack = ctx.number_stack) ∧
    ∀ inputs : List (key_stroke × Nat),
      (inputs.foldl (fun c kc => gitsi_process_search c kc.1 kc.2) ctx).entries = ctx.entries := by
  refine ⟨⟨rfl, rfl, rfl, rfl, rfl⟩, ?_⟩
  intro inputs
  induction inputs generalizing ctx with
  | nil => rfl
  | cons kc rest ih =>
    rw [List.foldl_cons, ih, gitsi_process_search_entries]

theorem getD_map_lt (f : Entry → Entry) (es : List Entry) (i : Nat) (h : i < es.length) :
    (es.map f).getD i Entry.dummy = f (es.getD i Entry.dummy) := by
  rw [List.getD_eq_getElem?_getD, List.getD_eq_getElem?_getD, List.getElem?_map]
  cases hg : es[i]? with
  | none =>
    have := List.getElem?_eq_none_iff.mp hg
    omega
  | some e => rfl

theorem getD_set_ne (es : List Entry) (p i : Nat) (a : Entry) (h : p ≠ i) :
    (es.set p a).getD i Entry.dummy = es.getD i Entry.dummy := by
  rw [List.getD_eq_getElem?_getD, List.getD_eq_getElem?_getD, List.getElem?_set_ne h]

theorem gitsi_mark_section_eq (ctx : Context) (p : Nat) (hp : ctx.position = some p)
    (hcat : (ctx.entries.getD p Entry.dummy).etype ≠ StatusType.category) :
    gitsi_mark_section ctx = { ctx with entries := (ctx.entries.map (fun e =>
      if e.etype = (ctx.entries.getD p Entry.dummy).etype
      then { e with marked := !(ctx.entries.getD p Entry.dummy).marked } else e)) } := by
  simp only [gitsi_mark_section, hp]
  rw [if_neg hcat]

theorem gitsi_toggle_mark_header {ctx : Context} {p : Nat} (hp : ctx.position = some p)
    (hpc : (ctx.entries.getD p Entry.dummy).etype ≠ StatusType.category) (i : Nat)
    (hic : (ctx.entries.getD i Entry.dummy).etype = StatusType.category) :
    ((gitsi_toggle_mark ctx).entries.getD i Entry.dummy).marked
      = (ctx.entries.getD i Entry.dummy).marked := by
  have hne : p ≠ i := by
    intro h
    rw [h] at hpc
    exact hpc hic
  simp only [gitsi_toggle_mark, hp]
  rw [getD_set_ne _ _ _ _ hne]

theorem selectEntryLoop_entries (d : Int) :
    ∀ fuel (ctx : Context) (pos : Int) (c : Context), ctx.is_visual_mark_mode = false →
      selectEntryLoop d ctx pos fuel = some c → c.entries = ctx.entries := by
  intro fuel
  induction fuel with
  | zero =>
    intro ctx pos c hv h
    exact absurd h (by rw [selectEntryLoop]; simp)
  | succ fuel ih =>
    intro ctx pos c hv h
    rw [selectEntryLoop] at h
    simp only [hv, Bool.false_eq_true, if_false] at h
    by_cases h1 : pos + d < 0
    · rw [if_pos h1] at h
      exact gitsi_select_last_entry_entries h
    · rw [if_neg h1] at h
      by_cases h2 : (ctx.filtered.length : Int) ≤ pos + d
      · rw [if_pos h2] at h
        cases Option.some.inj h
        exact gitsi_select_first_entry_entries ctx
      · rw [if_neg h2] at h
        cases hg : ctx.filtered.get? (pos + d).toNat with
        | none => rw [hg] at h; exact absurd h (by simp)
        | some j =>
          simp only [hg] at h
          by_cases h3 : isCatRow ctx (pos + d).toNat
          · rw [if_pos h3] at h
            exact ih ctx (pos + d) c hv h
          · rw [if_neg h3] at h
            cases Option.some.inj h
            rfl

theorem gitsi_select_entry_entries {ctx : Context} (hv : ctx.is_visual_mark_mode = false)
    (d : Int) (c : Context) (h : gitsi_select_entry ctx d = some c) :
    c.entries = ctx.entries := by
  rw [gitsi_select_entry] at h
  cases hf : findEntryPos ctx with
  | none =>
    rw [hf] at h
    cases Option.some.inj h
    exact gitsi_select_first_entry_entries ctx
  | some p =>
    rw [hf] at h
    exact selectEntryLoop_entries d _ ctx _ c hv h

/-- C2 counterexample: in visual mark mode, a single move from the Item at
    view position 0 over the Header at view position 1 sets the Header's
    `marked` flag to `true`, violating the claimed invariant. -/
theorem C2_counterexample :
    (ctxC2.entries.getD 1 Entry.dummy).etype = StatusType.category ∧
    (ctxC2.entries.getD 1 Entry.dummy).marked = false ∧
    (gitsi_select_entry ctxC2 1).map (fun c => (c.entries.getD 1 Entry.dummy).marked)
      = some true := by
  decide

/-- C2 amended: the section mark, the single mark on a non-Header selection
    and the visual-mode entry toggle never change a Header row's `marked`
    flag, and Navigator moves with visual mark mode off change no entry at
    all; but (per the counterexample) moves while visual mark mode is active
    do mark the Header rows they step over. -/
theorem C2_header_marks (ctx : Context) :
    (∀ i, i < ctx.entries.length →
        (ctx.entries.getD i Entry.dummy).etype = StatusType.category →
        ((gitsi_mark_section ctx).entries.getD i Entry.dummy).marked
          = (ctx.entries.getD i Entry.dummy).marked) ∧
    (∀ p i, ctx.position = some p →
        (ctx.entries.getD p Entry.dummy).etype ≠ StatusType.category →
        (ctx.entries.getD i Entry.dummy).etype = StatusType.category →
        ((gitsi_toggle_mark ctx).entries.getD i Entry.dummy).marked
          = (ctx.entries.getD i Entry.dummy).marked) ∧
    (∀ p i, ctx.position = some p →
        (ctx.entries.getD p Entry.dummy).etype ≠ StatusType.category →
        (ctx.entries.getD i Entry.dummy).etype = StatusType.category →
        ((gitsi_toggle_visual ctx).entries.getD i Entry.dummy).marked
          = (ctx.entries.getD i Entry.dummy).marked) ∧
    (ctx.is_visual_mark_mode = false →
      ∀ d c, gitsi_select_entry ctx d = some c → c.entries = ctx.entries) := by
  refine ⟨?_, ?_, ?_, ?_⟩
  · intro i hi hic
    cases hp : ctx.position with
    | none => rw [gitsi_mark_section, hp]
    | some p =>
      by_cases hpc : (ctx.entries.getD p Entry.dummy).etype = StatusType.category
      · simp only [gitsi_mark_section, hp, if_pos hpc]
      · simp only [gitsi_mark_section, hp, if_neg hpc]
        rw [getD_map_lt _ _ _ hi]
        rw [if_neg (by rw [hic]; exact fun h => hpc h.symm)]
  · intro p i hp hpc hic
    exact gitsi_toggle_mark_header hp hpc i hic
  · intro p i hp hpc hic
    rw [gitsi_toggle_visual]
    by_cases hcond : (!ctx.is_visual_mark_mode) = true ∧ ctx.position.isSome = true
    · rw [if_pos hcond]
      exact gitsi_toggle_mark_header hp hpc i hic
    · rw [if_neg hcond]
  · intro hv d c h
    exact gitsi_select_entry_entries hv d c h

/-- C2 witness: the amended statement applied at a concrete context. -/
theorem C2_header_marks_witness :
    ((gitsi_mark_section ctxC8).entries.getD 0 Entry.dummy).marked
      = (ctxC8.entries.getD 0 Entry.dummy).marked :=
  (C2_header_marks ctxC8).1 0 (by decide) (by decide)

theorem gitsi_mark_section_position (ctx : Context) :
    (gitsi_mark_section ctx).position = ctx.position := by
  cases hp : ctx.position with
  | none => simp only [gitsi_mark_section, hp]
  | some p =>
    simp only [gitsi_mark_section, hp]
    by_cases hpc : (ctx.entries.getD p Entry.dummy).etype = StatusType.category
    · rw [if_pos hpc]
      exact hp
    · rw [if_neg hpc]

/-- C8 counterexample: category Index holds Items a.c (marked) and b.c
    (unmarked); with the selection on b.c, applying the section mark twice
    leaves a.c unmarked, so the original mark state is not restored. -/
theorem C8_counterexample :
    (ctxC8.entries.getD 1 Entry.dummy).marked = true ∧
    ((gitsi_mark_section (gitsi_mark_section ctxC8)).entries.getD 1 Entry.dummy).marked
      = false := by
  decide

/-- C8 amended: applying the section mark twice sets every row of the
    anchor's category to the anchor's original mark state and leaves all
    other rows unchanged; the original assignment is therefore restored
    exactly when all rows of the category initially agreed with the
    anchor. -/
theorem C8_mark_section_twice (ctx : Context) (p : Nat) (hp : ctx.position = some p)
    (hlen : p < ctx.entries.length)
    (hcat : (ctx.entries.getD p Entry.dummy).etype ≠ StatusType.category) :
    ∀ i, i < ctx.entries.length →
      ((gitsi_mark_section (gitsi_mark_section ctx)).entries.getD i Entry.dummy).marked =
        (if (ctx.entries.getD i Entry.dummy).etype = (ctx.entries.getD p Entry.dummy).etype
         then (ctx.entries.getD p Entry.dummy).marked
         else (ctx.entries.getD i Entry.dummy).marked) := by
  intro i hi
  have h1 := gitsi_mark_section_eq ctx p hp hcat
  have hp1 : (gitsi_mark_section ctx).position = some p := by
    rw [gitsi_mark_section_position, hp]
  have hlen1 : p < (gitsi_mark_section ctx).entries.length := by
    rw [h1]
    simpa using hlen
  have hanchor1 : (gitsi_mark_section ctx).entries.getD p Entry.dummy
      = { ctx.entries.getD p Entry.dummy with
            marked := !(ctx.entries.getD p Entry.dummy).marked } := by
    rw [h1]
    dsimp only
    rw [getD_map_lt _ _ _ hlen]
    simp
  have hcat1 : ((gitsi_mark_section ctx).entries.getD p Entry.dummy).etype
      ≠ StatusType.category := by
    rw [hanchor1]
    exact hcat
  have h2 := gitsi_mark_section_eq (gitsi_mark_section ctx) p hp1 hcat1
  have hi1 : i < (gitsi_mark_section ctx).entries.length := by
    rw [h1]
    simpa using hi
  have hgi : (gitsi_mark_section ctx).entries.getD i Entry.dummy =
      (if (ctx.entries.getD i Entry.dummy).etype = (ctx.entries.getD p Entry.dummy).etype
       then { ctx.entries.getD i Entry.dummy with
                marked := !(ctx.entries.getD p Entry.dummy).marked }
       else ctx.entries.getD i Entry.dummy) := by
    rw [h1]
    dsimp only
    rw [getD_map_lt _ _ _ hi]
  rw [h2]
  dsimp only
  rw [getD_map_lt _ _ _ hi1, hgi, hanchor1]
  by_cases hit : (ctx.entries.getD i Entry.dummy).etype = (ctx.entries.getD p Entry.dummy).etype
  · rw [if_pos hit]
    simp only [List.getD_eq_getElem?_getD] at hit
    simp [hit]
  · rw [if_neg hit]
    simp only [List.getD_eq_getElem?_getD] at hit
    simp [hit]

/-- C8 witness: the amended statement applied at a concrete context. -/
theorem C8_mark_section_twice_witness :
    ((gitsi_mark_section (gitsi_mark_section ctxC8)).entries.getD 1 Entry.dummy).marked =
      (if (ctxC8.entries.getD 1 Entry.dummy).etype = (ctxC8.entries.getD 2 Entry.dummy).etype
       then (ctxC8.entries.getD 2 Entry.dummy).marked
       else (ctxC8.entries.getD 1 Entry.dummy).marked) :=
  C8_mark_section_twice ctxC8 2 rfl (by decide) (by decide) 1 (by decide)


/-- C5 counterexample: with search term "main" the Filtered View of `ctxC5`
    is [Header Index, main.c, Header Workspace]; its last row is a Header and
    an Item precedes it, yet `gitsi_select_last_entry` selects the Header
    instead of falling back to the Item. -/
theorem C5_counterexample :
    ctxC5.filtered = [0, 1, 2] ∧
    (ctxC5.entries.getD 2 Entry.dummy).etype = StatusType.category ∧
    (ctxC5.entries.getD 1 Entry.dummy).etype ≠ StatusType.category ∧
    (gitsi_select_last_entry ctxC5).map (fun c => c.position) = some (some 2) := by
  decide

/-- C5 amended: `gitsi_select_last_entry` unconditionally selects the last
    row of a non-empty Filtered View — also when that row is a Header; there
    is no fallback to a preceding Item. -/
theorem C5_select_last (ctx : Context) (h : ctx.filtered ≠ []) :
    gitsi_select_last_entry ctx =
      some { ctx with position := some (ctx.filtered.getLast h) } := by
  rw [gitsi_select_last_entry, List.getLast?_eq_getLast ctx.filtered h]

/-- C5 witness: the amended statement applied at a concrete context. -/
theorem C5_select_last_witness :
    gitsi_select_last_entry ctxC5 = some { ctxC5 with position := some 2 } := by
  rw [C5_select_last ctxC5 (by decide)]
  decide

/-- C6: `gitsi_select_entry_by_index` guards only `index > count`, so
    `index = count` falls through to the out-of-bounds access
    `filtered_entries[count]` (the `none` execution), while `index > count`
    is clamped to the last row as specified. -/
theorem C6_select_by_index_oob :
    gitsi_select_entry_by_index ctxC6 1 = none ∧
    gitsi_select_entry_by_index ctxC6 2 = some { ctxC6 with position := some 0 } := by
  decide

/-- C9 counterexample: 20 rows, selected ordinal 19, screen height 12
    (viewport H = 10): the code computes start offset 14
    (min(19 − 5, 20 − 5)), the claimed clamp formula gives 10
    (clamp(19 − 5, 0, 20 − 10)). -/
theorem C9_counterexample :
    gitsi_scroll_start ctxC9 12 = 14 ∧
    spec_scroll_start ctxC9 12 = 10 ∧
    gitsi_scroll_start ctxC9 12 ≠ spec_scroll_start ctxC9 12 := by
  decide

theorem wrapSub64_of_le {a b : Nat} (hba : b ≤ a) (ha : a < 2 ^ 64) :
    wrapSub64 a b = a - b := by
  rw [wrapSub64]
  omega

theorem toInt32_wrapSub64 {a b : Nat} (ha : a < 2 ^ 31) (hb : b < 2 ^ 31) :
    toInt32 (wrapSub64 a b) = (a : Int) - (b : Int) := by
  rw [wrapSub64, toInt32]
  split
  · omega
  · omega

theorem gitsi_position_index_le (ctx : Context) :
    gitsi_position_index ctx ≤ ctx.filtered.length := by
  rw [gitsi_position_index]
  cases hf : findFromStride (fun i => decide (ctx.position = some (ctx.filtered.getD i 0)))
      ctx.filtered.length 0 0 with
  | none =>
    dsimp only
    omega
  | some i =>
    obtain ⟨-, h2, -, -⟩ := findFromStride_some hf
    dsimp only
    omega

/-- C9 amended: for realistic sizes the scroll start offset is
    `max 0 (min (cursor − H/2) (count − H/2))` — the upper bound is
    `count − H/2`, not the claimed `count − H` — and it is `0` whenever all
    rows fit (`count < H`). -/
theorem C9_scroll_start (ctx : Context) (max_y : Nat) (hy : 2 ≤ max_y)
    (hymax : max_y < 2 ^ 31) (hcount : ctx.filtered.length < 2 ^ 31) :
    gitsi_scroll_start ctx max_y =
      if ctx.filtered.length < max_y - 2 then 0
      else
        (max (min ((gitsi_position_index ctx : Int) - (((max_y - 2) / 2 : Nat) : Int))
            ((ctx.filtered.length : Int) - (((max_y - 2) / 2 : Nat) : Int))) 0).toNat := by
  have hcur : gitsi_position_index ctx < 2 ^ 31 :=
    lt_of_le_of_lt (gitsi_position_index_le ctx) hcount
  rw [gitsi_scroll_start]
  have hlh : wrapSub64 max_y 2 = max_y - 2 :=
    wrapSub64_of_le hy (by omega)
  rw [hlh]
  have hdiv : (max_y - 2) / 2 < 2 ^ 31 := by omega
  rw [toInt32_wrapSub64 hcur hdiv, toInt32_wrapSub64 hcount hdiv]

/-- C9 witness: the amended statement applied at a concrete context. -/
theorem C9_scroll_start_witness :
    gitsi_scroll_start ctxC9 12 =
      if ctxC9.filtered.length < 12 - 2 then 0
      else
        (max (min ((gitsi_position_index ctxC9 : Int) - (((12 - 2) / 2 : Nat) : Int))
            ((ctxC9.filtered.length : Int) - (((12 - 2) / 2 : Nat) : Int))) 0).toNat :=
  C9_scroll_start ctxC9 12 (by decide) (by decide) (by decide)


theorem select_by_index_finds (ctx : Context) :
    ∀ n index q, q - index ≤ n →
      findFromStride (fun r => !isCatRow ctx r) ctx.filtered.length 0 index = some q →
      gitsi_select_entry_by_index ctx index =
        some { ctx with position := some (ctx.filtered.getD q 0) } := by
  intro n
  induction n with
  | zero =>
    intro index q hn h
    obtain ⟨hle, hq, hpred, -⟩ := findFromStride_some h
    have heq : index = q := by omega
    subst heq
    obtain ⟨j, hj⟩ : ∃ j, ctx.filtered.get? index = some j := by
      cases hg : ctx.filtered.get? index with
      | none =>
        have := List.get?_eq_none.mp hg
        omega
      | some j => exact ⟨j, rfl⟩
    rw [gitsi_select_entry_by_index_unfold, if_neg (by omega), if_neg (by omega)]
    simp only [hj]
    rw [if_neg (by simpa using hpred), getD_of_get? hj]
  | succ n ih =>
    intro index q hn h
    obtain ⟨hle, hq, hpred, -⟩ := findFromStride_some h
    by_cases heq : index = q
    · subst heq
      obtain ⟨j, hj⟩ : ∃ j, ctx.filtered.get? index = some j := by
        cases hg : ctx.filtered.get? index with
        | none =>
          have := List.get?_eq_none.mp hg
          omega
        | some j => exact ⟨j, rfl⟩
      rw [gitsi_select_entry_by_index_unfold, if_neg (by omega), if_neg (by omega)]
      simp only [hj]
      rw [if_neg (by simpa using hpred), getD_of_get? hj]
    · have hidx : index < ctx.filtered.length := by omega
      have hpi : (fun r => !isCatRow ctx r) index = false := by
        rw [findFromStride_unfold, if_pos hidx] at h
        by_cases hp : (fun r => !isCatRow ctx r) index
        · rw [if_pos hp] at h
          exact absurd (Option.some.inj h) heq
        · simpa using hp
      have hcat : isCatRow ctx index = true := by simpa using hpi
      obtain ⟨j, hj⟩ : ∃ j, ctx.filtered.get? index = some j := by
        cases hg : ctx.filtered.get? index with
        | none =>
          have := List.get?_eq_none.mp hg
          omega
        | some j => exact ⟨j, rfl⟩
      rw [gitsi_select_entry_by_index_unfold, if_neg (by omega), if_neg (by omega)]
      simp only [hj]
      rw [if_pos hcat]
      refine ih (index + 1) q (by omega) ?_
      rw [findFromStride_unfold, if_pos hidx, if_neg (by simp [hcat])] at h
      simpa using h

/-- C1 counterexample: before the mutation the selection is Item
    (b.c, Index); after the rebuild the same identity is still present in
    the new Filtered View, yet the code selects the entry at the old ordinal
    position — x.c — neither the identity match nor the first selectable
    Item (which is b.c, at store index 1). -/
theorem C1_counterexample :
    (ctxC1.position.map (fun p => ((ctxC1.entries.getD p Entry.dummy).filename,
        (ctxC1.entries.getD p Entry.dummy).etype))) = some ("b.c", StatusType.indexed) ∧
    (gitsi_update_status ctxC1 snapC1).map (fun c => decide (∃ j ∈ c.filtered,
        (c.entries.getD j Entry.dummy).filename = "b.c" ∧
        (c.entries.getD j Entry.dummy).etype = StatusType.indexed)) = some true ∧
    (gitsi_update_status ctxC1 snapC1).map
        (fun c => (gitsi_select_first_entry c).position) = some (some 1) ∧
    (gitsi_mutate_flow ctxC1 snapC1).map
        (fun c => c.position.map (fun p => (c.entries.getD p Entry.dummy).filename))
      = some (some "x.c") := by
  decide

/-- C1 amended: after a rebuild triggered by stage/unstage/reset the
    selection is restored purely by ordinal position: when the new Filtered
    View has a non-Header row at or after the old view index, the first such
    row becomes the selection; the identity (path, category) of the old
    selection is never consulted. -/
theorem C1_ordinal_reselect (ctx : Context) (snapshot : List Entry) (c1 : Context)
    (h1 : gitsi_update_status ctx snapshot = some c1) (q : Nat)
    (hq : findFromStride (fun r => !isCatRow c1 r) c1.filtered.length 0
        (gitsi_position_index ctx) = some q) :
    gitsi_mutate_flow ctx snapshot =
      some { c1 with position := some (c1.filtered.getD q 0) } := by
  rw [gitsi_mutate_flow, h1]
  exact select_by_index_finds c1 q (gitsi_position_index ctx) q (by omega) hq

/-- C1 witness: the amended statement applied at a concrete input. -/
theorem C1_ordinal_reselect_witness :
    gitsi_mutate_flow ctxC1 snapC1 =
      some { ctxC1after with position := some (ctxC1after.filtered.getD 2 0) } :=
  C1_ordinal_reselect ctxC1 snapC1 ctxC1after (by decide) 2 (by decide)


theorem nodup_getD_inj {l : List Nat} (hnd : l.Nodup) {m q : Nat} (hm : m < l.length)
    (hq : q < l.length) (h : l.getD m 0 = l.getD q 0) : m = q := by
  have hm2 : l.getD m 0 = l[m] := by
    rw [List.getD_eq_getElem?_getD, List.getElem?_eq_getElem hm]
    rfl
  have hq2 : l.getD q 0 = l[q] := by
    rw [List.getD_eq_getElem?_getD, List.getElem?_eq_getElem hq]
    rfl
  rw [hm2, hq2] at h
  exact (List.Nodup.getElem_inj_iff hnd).mp h

/-- When the selection is the (non-category) row at view position `q` of a
    duplicate-free view, the search loop of `gitsi_select_entry` finds
    exactly `q`. -/
theorem findEntryPos_eq (ctx : Context) (hnd : ctx.filtered.Nodup) (q : Nat)
    (hq : q < ctx.filtered.length) (hnc : isCatRow ctx q = false)
    (hpos : ctx.position = some (ctx.filtered.getD q 0)) :
    findEntryPos ctx = some q := by
  rw [findEntryPos]
  refine findFromStride_eq_some (k := q) (by omega) hq ?_ ?_
  · simp [hnc, hpos]
  · intro m hm
    have hmrw : 0 + m * (0 + 1) = m := by omega
    rw [hmrw]
    have hmq : m ≠ q := by omega
    by_cases hcm : isCatRow ctx m
    · simp [hcm]
    · have hne : ctx.filtered.getD m 0 ≠ ctx.filtered.getD q 0 := fun hEq =>
        hmq (nodup_getD_inj hnd (by omega) hq hEq)
      simp only [hcm, Bool.not_false, Bool.true_and, hpos, decide_eq_false_iff_not]
      intro hcontra
      exact hne (Option.some.inj hcontra).symm

/-- A single downward move (direction `+1`, visual mark mode off) from the
    selectable row at view position `q` lands on the next selectable view
    position `q2`. -/
theorem gitsi_select_entry_step (c : Context) (hv : c.is_visual_mark_mode = false)
    (hnd : c.filtered.Nodup) (q q2 : Nat) (hq : q < c.filtered.length)
    (hnc : isCatRow c q = false)
    (hpos : c.position = some (c.filtered.getD q 0))
    (hf : findFromStride (fun i => !isCatRow c i) c.filtered.length 0 (q + 1) = some q2) :
    gitsi_select_entry c 1 = some { c with position := some (c.filtered.getD q2 0) } := by
  have hfind := findEntryPos_eq c hnd q hq hnc hpos
  have hloop := selectEntryLoop_up 0 c hv (c.filtered.length + 1) q (by omega)
  simp only [Nat.cast_zero, zero_add] at hloop
  simp only [hf] at hloop
  simp only [gitsi_select_entry, hfind]
  exact hloop

/-- Iterating single downward moves with visual mark mode off walks the
    chain of next selectable view positions. -/
theorem iterate_nextSel (ctx : Context) (hv : ctx.is_visual_mark_mode = false)
    (hnd : ctx.filtered.Nodup) :
    ∀ n q q', q < ctx.filtered.length → isCatRow ctx q = false →
      nthSelFrom ctx q n = some q' →
      iterateSelect 1 n { ctx with position := some (ctx.filtered.getD q 0) } =
        some { ctx with position := some (ctx.filtered.getD q' 0) } := by
  intro n
  induction n with
  | zero =>
    intro q q' hq hnc h
    obtain rfl : q = q' := Option.some.inj h
    rfl
  | succ n ih =>
    intro q q' hq hnc h
    simp only [nthSelFrom] at h
    cases hf : findFromStride (fun i => !isCatRow ctx i) ctx.filtered.length 0 (q + 1) with
    | none =>
      rw [hf] at h
      exact absurd h (by simp)
    | some q2 =>
      rw [hf] at h
      obtain ⟨-, hq2, hpq2, -⟩ := findFromStride_some hf
      have hnc2 : isCatRow ctx q2 = false := by simpa using hpq2
      have hstep := gitsi_select_entry_step
        { ctx with position := some (ctx.filtered.getD q 0) } hv hnd q q2 hq hnc rfl hf
      simp only [iterateSelect, hstep]
      exact ih q2 q' hq2 hnc2 h

/-- C3 counterexample: with visual mark mode active, a downward move from
    the last row of the view does not wrap to the first selectable Item —
    the pre-check mark write `filtered_entries[position]->marked = true`
    goes one past the end of the view (the `none` execution) although
    `gitsi_select_first_entry` would have a selectable Item to offer. -/
theorem C3_counterexample :
    gitsi_select_entry ctxC3 1 = none ∧
    (gitsi_select_first_entry ctxC3).position = some 1 := by
  decide

/-- C3 amended (visual mark mode off): a move with direction `s+1` walks
    the progression `p + (s+1), p + 2(s+1), …`, lands on its first
    non-Header row and wraps to `selectFirst` when the progression leaves
    the view; a move with direction `-(s+1)` walks downward, landing on the
    first non-Header row and wrapping to `selectLast` below zero; and from
    `selectFirst`, `n` single downward moves land on the `n`-th selectable
    row of the view.  (With visual mark mode on, the wrap cases instead
    write out of bounds, per the counterexample.) -/
theorem C3_move_semantics (ctx : Context) (hv : ctx.is_visual_mark_mode = false)
    (hnd : ctx.filtered.Nodup) (p : Nat) (hp : findEntryPos ctx = some p) :
    (∀ s : Nat, gitsi_select_entry ctx ((s : Int) + 1) =
        match findFromStride (fun i => !isCatRow ctx i) ctx.filtered.length s (p + (s + 1)) with
        | some q => some { ctx with position := some (ctx.filtered.getD q 0) }
        | none => some (gitsi_select_first_entry ctx)) ∧
    (∀ s : Nat, gitsi_select_entry ctx (-((s : Int) + 1)) =
        match findDownStride (fun i => !isCatRow ctx i) s ((p : Int) - ((s : Int) + 1)) with
        | some q => some { ctx with position := some (ctx.filtered.getD q 0) }
        | none => gitsi_select_last_entry ctx) ∧
    (∀ n q, nthSel ctx n = some q →
        iterateSelect 1 n (gitsi_select_first_entry ctx) =
          some { ctx with position := some (ctx.filtered.getD q 0) }) := by
  have hp' : findFromStride
      (fun i => !isCatRow ctx i && decide (ctx.position = some (ctx.filtered.getD i 0)))
      ctx.filtered.length 0 0 = some p := by
    rw [findEntryPos] at hp
    exact hp
  obtain ⟨-, hplt, -, -⟩ := findFromStride_some hp'
  refine ⟨?_, ?_, ?_⟩
  · intro s
    simp only [gitsi_select_entry, hp]
    exact selectEntryLoop_up s ctx hv (ctx.filtered.length + 1) p (by omega)
  · intro s
    simp only [gitsi_select_entry, hp]
    exact selectEntryLoop_down s ctx hv (ctx.filtered.length + 1) p hplt (by omega)
  · intro n q hns
    rw [nthSel] at hns
    cases hf0 : findFromStride (fun i => !isCatRow ctx i) ctx.filtered.length 0 0 with
    | none =>
      rw [hf0] at hns
      exact absurd hns (by simp)
    | some q0 =>
      rw [hf0] at hns
      have hfst : gitsi_select_first_entry ctx
          = { ctx with position := some (ctx.filtered.getD q0 0) } := by
        simp only [gitsi_select_first_entry, hf0]
      rw [hfst]
      obtain ⟨-, hq0, hpq0, -⟩ := findFromStride_some hf0
      exact iterate_nextSel ctx hv hnd n q0 q hq0 (by simpa using hpq0) hns

/-- C3 witness: from `selectFirst`, two single moves land on the second
    selectable row after the first one. -/
theorem C3_move_semantics_witness :
    iterateSelect 1 2 (gitsi_select_first_entry ctxC3w) =
      some { ctxC3w with position := some (ctxC3w.filtered.getD 4 0) } :=
  (C3_move_semantics ctxC3w (by decide) (by decide) 1 (by decide)).2.2 2 4 (by decide)


theorem translate_key_digit {ch : Nat} (h1 : 48 ≤ ch) (h2 : ch ≤ 57) :
    translate_key ch = key_stroke.K_OTHER := by
  interval_cases ch <;> decide

/-- The `K_J` dispatch of the router: repeat the single downward move
    `iteration_count` times, then clear a non-empty digit buffer. -/
theorem gitsi_process_input_j (ctx : Context) (snapshot : List Entry) (answer : Bool)
    (hs : ctx.is_search = false) (hc : ctx.is_in_command_mode = false)
    (hh : ctx.is_in_help = false) :
    gitsi_process_input ctx snapshot answer 106
      = (iterateSelect 1
            (if ctx.number_stack.length > 0 then atoi_digits ctx.number_stack else 1)
            ctx).map
          (fun c => if 0 < c.number_stack.length then { c with number_stack := [] } else c) := by
  have hk : translate_key 106 = key_stroke.K_J := by decide
  simp [gitsi_process_input, hk, hs, hc, hh]
  cases hit : iterateSelect 1
      (if 0 < ctx.number_stack.length then atoi_digits ctx.number_stack else 1) ctx with
  | none => simp [hit]
  | some c =>
    simp [hit]
    split <;> rfl

/-- C7 counterexample: typing the prefix "0" and then `j` performs zero
    move steps — the selection stays on view row 1 — although the claimed
    minimum of 1 repetition would move it (a single step advances the
    selection to store index 2). -/
theorem C7_counterexample :
    ((gitsi_process_input ctxC7 [] false 48).bind
        (fun c => gitsi_process_input c [] false 106)).map (fun c => c.position)
      = some (some 1) ∧
    (gitsi_select_entry ctxC7 1).map (fun c => c.position) = some (some 2) := by
  decide

/-- C7 amended: in Normal mode a digit is appended to the prefix buffer
    while it holds fewer than 7 digits and silently dropped from the eighth
    digit on; the `j` command repeats its single step `atoi` of the prefix many times
    when a prefix is present — so the prefix "0" performs zero steps and
    leaves the selection unchanged — and once when the prefix is empty, and
    it clears the prefix buffer. -/
theorem C7_repeat_count (ctx : Context) (snapshot : List Entry) (answer : Bool)
    (hs : ctx.is_search = false) (hc : ctx.is_in_command_mode = false)
    (hh : ctx.is_in_help = false) :
    (∀ ch, 48 ≤ ch → ch ≤ 57 → ctx.number_stack.length < 7 →
      gitsi_process_input ctx snapshot answer ch
        = some { ctx with number_stack := ctx.number_stack ++ [ch] }) ∧
    (∀ ch, 48 ≤ ch → ch ≤ 57 → 7 ≤ ctx.number_stack.length →
      gitsi_process_input ctx snapshot answer ch = some ctx) ∧
    (gitsi_process_input ctx snapshot answer 106
      = (iterateSelect 1
            (if ctx.number_stack.length > 0 then atoi_digits ctx.number_stack else 1)
            ctx).map
          (fun c => if 0 < c.number_stack.length then { c with number_stack := [] } else c)) ∧
    (ctx.number_stack = [48] →
      gitsi_process_input ctx snapshot answer 106 = some { ctx with number_stack := [] }) := by
  refine ⟨?_, ?_, gitsi_process_input_j ctx snapshot answer hs hc hh, ?_⟩
  · intro ch h1 h2 hlen
    have hk := translate_key_digit h1 h2
    have hnot : ¬ 7 ≤ ctx.number_stack.length := by omega
    simp [gitsi_process_input, hk, hs, hc, hh, h1, h2, hnot]
  · intro ch h1 h2 hlen
    have hk := translate_key_digit h1 h2
    simp [gitsi_process_input, hk, hs, hc, hh, h1, h2, hlen]
  · intro hstack
    rw [gitsi_process_input_j ctx snapshot answer hs hc hh, hstack]
    simp [atoi_digits, iterateSelect, hstack]

/-- C7 witness: the amended statement applied at a concrete context with
    prefix "0". -/
theorem C7_repeat_count_witness :
    gitsi_process_input { ctxC7 with number_stack := [48] } [] false 106
      = some { ctxC7 with number_stack := [] } :=
  (C7_repeat_count { ctxC7 with number_stack := [48] } [] false rfl rfl rfl).2.2.2 rfl

end Gitsi
